import Mathlib

/-!
# Verification of the Chicago health-map pipeline (`main.py`)

Shallow embedding of the core of `main.py`: the join/normalization step
(`merge_data`), the color-scale bounds computed in `make_poster`
(lines 91-92, pandas `Series.quantile`), and the pipeline order of `main`.

Modelling conventions:
* Strings are lists of character codes (`Str := List Nat`), so that Python's
  `str.lower` / `str.strip` are explicit code-level functions.
* A pandas/geopandas data frame is a list of column names plus a list of
  rows; each row is a list of cells aligned with the column list.
* A cell is a string, a rational number, or null (NaN / None).  Rationals
  stand for the numeric values flowing through the pipeline.
* `pd.to_numeric(..., errors="coerce")` is the total function `toNumeric`.
* `gdf.merge(df, on="__join__", how="left")` is `leftMerge`: every left row
  is paired with each matching right row (in right-side order), and a left
  row with no match is kept once with nulls for the right columns;
  non-key column names occurring on both sides get `_x` / `_y` suffixes.
-/

abbrev Str := List Nat

/-- Character codes of a Lean string literal. -/
def codes (s : String) : Str := s.data.map Char.toNat

/-- ASCII lowercasing of one character code (Python `str.lower` restricted to
ASCII, the alphabet of all community-area names). -/
def lowerCode (n : Nat) : Nat := if 65 ≤ n ∧ n ≤ 90 then n + 32 else n

/-- Python `str.lower`, code-wise. -/
def lowerStr (s : Str) : Str := s.map lowerCode

/-- Whitespace as stripped by Python `str.strip` (ASCII subset). -/
def isSpaceCode (n : Nat) : Bool :=
  n == 32 || n == 9 || n == 10 || n == 11 || n == 12 || n == 13

/-- Python `str.strip`: drop leading and trailing whitespace. -/
def stripStr (s : Str) : Str :=
  (s.dropWhile isSpaceCode).rdropWhile isSpaceCode

/-- The join-key normalization of `merge_data` (lines 74-75):
`.str.lower().str.strip()`. -/
def normalizeKey (s : Str) : Str := stripStr (lowerStr s)

/-- One table cell: a string, a number, or a missing value (NaN/None). -/
inductive Cell where
  | str (s : Str)
  | num (q : ℚ)
  | null
deriving DecidableEq, Repr

/-- Python `astype(str)` on one cell.  Numbers render via `toString`;
missing values render as `"nan"`, as pandas does. -/
def cellStr : Cell → Str
  | .str s => s
  | .num q => codes (toString q)
  | .null => codes "nan"

/-- `astype(str).str.lower().str.strip()` applied to one cell. -/
def normCell (c : Cell) : Cell := .str (normalizeKey (cellStr c))

/-- A data frame: column names plus rows aligned with them. -/
structure DataFrame where
  cols : List Str
  rows : List (List Cell)
deriving DecidableEq, Repr

/-- Index of a column name, if present. -/
def colIdx (d : DataFrame) (c : Str) : Option Nat :=
  d.cols.findIdx? (fun x => x == c)

/-- The values of column `c` (null-padded; a missing column reads as nulls,
which never happens on the paths the code takes). -/
def colValsD (d : DataFrame) (c : Str) : List Cell :=
  match colIdx d c with
  | some i => d.rows.map (fun r => r.getD i Cell.null)
  | none => d.rows.map (fun _ => Cell.null)

/-- Pandas column assignment `d[c] = vals`: overwrite in place if the column
exists, else append it on the right. -/
def setCol (d : DataFrame) (c : Str) (vals : List Cell) : DataFrame :=
  match colIdx d c with
  | some i => ⟨d.cols, (d.rows.zip vals).map (fun rv => rv.1.set i rv.2)⟩
  | none => ⟨d.cols ++ [c], (d.rows.zip vals).map (fun rv => rv.1 ++ [rv.2])⟩

def joinName : Str := codes "__join__"
def caName : Str := codes "Community Area Name"
def communityLower : Str := codes "community"
def metricValueName : Str := codes "metric_value"

/-- Whether a column name contains `"community"` case-insensitively
(the test `"community" in c.lower()` of line 64). -/
def containsCommunity (c : Str) : Bool := decide (communityLower <:+: lowerStr c)

/-- The loop of lines 62-66: the first column whose lowercased name contains
`"community"`. -/
def findGKey (cols : List Str) : Option Str := cols.find? containsCommunity

/-- ASCII decimal digit. -/
def isDigit (n : Nat) : Bool := 48 ≤ n && n ≤ 57

/-- Value of a digit string (empty reads as 0; callers guard emptiness). -/
def digitsVal (l : Str) : Nat := l.foldl (fun a d => a * 10 + (d - 48)) 0

/-- Standard numeric parsing of a string, as `pd.to_numeric` accepts it:
optional surrounding whitespace, optional sign, decimal digits with an
optional fractional part (exponent forms omitted from the model). -/
def parseNum (s : Str) : Option ℚ :=
  let t := stripStr s
  let sgn : ℚ := if t.headD 0 == 45 then -1 else 1
  let u := if t.headD 0 == 45 || t.headD 0 == 43 then t.tail else t
  let intPart := u.takeWhile isDigit
  let rest := u.dropWhile isDigit
  match rest with
  | [] =>
    if intPart.isEmpty then none else some (sgn * (digitsVal intPart : ℚ))
  | 46 :: frac =>
    if frac.all isDigit && !(intPart.isEmpty && frac.isEmpty) then
      some (sgn * ((digitsVal intPart : ℚ) +
        (digitsVal frac : ℚ) / (10 : ℚ) ^ frac.length))
    else none
  | _ => none

/-- `pd.to_numeric(x, errors="coerce")` on one cell: numbers pass through,
strings parse or coerce to null, missing stays null.  Total: never raises. -/
def toNumeric : Cell → Cell
  | .null => .null
  | .num q => .num q
  | .str s =>
    match parseNum s with
    | some q => .num q
    | none => .null

/-- Column-name layer of `gdf.merge(df, on="__join__", how="left")`:
left columns, then right columns minus the key; a non-key name present on
both sides is suffixed `_x` on the left copy and `_y` on the right copy. -/
def mergedCols (lc rc : List Str) : List Str :=
  lc.map (fun c => if (c != joinName) && rc.contains c then c ++ codes "_x" else c) ++
  (rc.filter (fun c => c != joinName)).map
    (fun c => if lc.contains c then c ++ codes "_y" else c)

/-- The `__join__` value of a row of `d`. -/
def rowJoinVal (d : DataFrame) (r : List Cell) : Cell :=
  match colIdx d joinName with
  | some i => r.getD i Cell.null
  | none => Cell.null

/-- A row of `d` with its `__join__` entry removed. -/
def dropJoin (d : DataFrame) (r : List Cell) : List Cell :=
  match colIdx d joinName with
  | some i => r.eraseIdx i
  | none => r

/-- Output rows contributed by one left row: one per matching right row,
or a single null-extended row when nothing matches. -/
def leftMergeRow (l r : DataFrame) (lr : List Cell) : List (List Cell) :=
  let ms := r.rows.filter (fun rr => rowJoinVal r rr == rowJoinVal l lr)
  if ms.isEmpty then
    [lr ++ (r.cols.filter (fun c => c != joinName)).map (fun _ => Cell.null)]
  else ms.map (fun rr => lr ++ dropJoin r rr)

/-- `l.merge(r, on="__join__", how="left")`. -/
def leftMerge (l r : DataFrame) : DataFrame :=
  ⟨mergedCols l.cols r.cols, (l.rows.map (leftMergeRow l r)).flatten⟩

/-- The errors `merge_data` can raise. -/
inductive MergeError where
  | noCommunityField
  | noCsvKeyColumn
  | metricNotFound
deriving DecidableEq, Repr

/-- Whether an error is one of the two schema errors of lines 67-72. -/
def MergeError.isSchema : MergeError → Bool
  | .noCommunityField => true
  | .noCsvKeyColumn => true
  | .metricNotFound => false

/-- `merge_data(gdf, df, metric)` (lines 60-83).  Returns the mutated
`gdf` and `df` (both gain the `__join__` column, lines 74-75) together with
the merged frame extended with `metric_value` (line 82). -/
def merge_data (gdf df : DataFrame) (metric : Str) :
    Except MergeError (DataFrame × DataFrame × DataFrame) :=
  match findGKey gdf.cols with
  | none => .error .noCommunityField
  | some gkey =>
    if caName ∈ df.cols then
      let gdf2 := setCol gdf joinName ((colValsD gdf gkey).map normCell)
      let df2 := setCol df joinName ((colValsD df caName).map normCell)
      let merged := leftMerge gdf2 df2
      if metric ∈ merged.cols then
        .ok (gdf2, df2,
          setCol merged metricValueName ((colValsD merged metric).map toNumeric))
      else .error .metricNotFound
    else .error .noCsvKeyColumn

/-- The numeric reading of a cell: `metric_value` cells are either numbers
or null. -/
def cellOptNum : Cell → Option ℚ
  | .num q => some q
  | _ => none

/-- The `metric_value` column of a merged frame, as optional rationals. -/
def metricVals (m : DataFrame) : List (Option ℚ) :=
  (colValsD m metricValueName).map cellOptNum

/-- Drop the nulls of a value column (pandas quantile `skipna`). -/
def dropNulls (l : List (Option ℚ)) : List ℚ := l.filterMap id

/-- Sort values ascending (the order-statistics step of the quantile). -/
def sortQ (l : List ℚ) : List ℚ := l.insertionSort (· ≤ ·)

/-- Linear interpolation into a sorted list at fractional index `h`: with
`i = ⌊h⌋`, the value `ys[i] + (h-i)*(ys[i+1]-ys[i])`, or the last element
when `i` is already the last index. -/
def interpAt (ys : List ℚ) (h : ℚ) : ℚ :=
  if (⌊h⌋).toNat + 1 < ys.length then
    ys.getD (⌊h⌋).toNat 0 +
      (h - ((⌊h⌋).toNat : ℚ)) *
        (ys.getD ((⌊h⌋).toNat + 1) 0 - ys.getD (⌊h⌋).toNat 0)
  else ys.getD (ys.length - 1) 0

/-- Linear-interpolation quantile of an already sorted list, at fractional
index `q*(n-1)`; `none` on an empty list (pandas returns NaN there). -/
def quantileSorted (ys : List ℚ) (q : ℚ) : Option ℚ :=
  if ys.isEmpty then none
  else some (interpAt ys (q * ((ys.length : ℚ) - 1)))

/-- `Series.quantile(q)` of pandas: drop nulls, sort, interpolate linearly. -/
def seriesQuantile (vals : List (Option ℚ)) (q : ℚ) : Option ℚ :=
  quantileSorted (sortQ (dropNulls vals)) q

/-- The color-scale bounds of `make_poster` (lines 91-92):
`vmin = quantile(0.01)`, `vmax = quantile(0.99)` of `metric_value`. -/
def colorScale (vals : List (Option ℚ)) : Option ℚ × Option ℚ :=
  (seriesQuantile vals (1 / 100), seriesQuantile vals (99 / 100))

/-- Percentile as the spec words it, for comparison with `seriesQuantile`:
on the (already null-free) values, sort, then linearly interpolate between
the order statistics `x_i` and `x_(i+1)` with weight `g = h - ⌊h⌋`,
`h = p*(n-1)`: the value is `(1-g)*x_i + g*x_(i+1)`. -/
def specPercentile (xs : List ℚ) (p : ℚ) : Option ℚ :=
  let ys := sortQ xs
  if ys.isEmpty then none
  else
    let n := ys.length
    let h : ℚ := p * ((n : ℚ) - 1)
    let i : ℕ := (⌊h⌋).toNat
    let g : ℚ := h - (i : ℚ)
    if i + 1 < n then
      some ((1 - g) * ys.getD i 0 + g * ys.getD (i + 1) 0)
    else some (ys.getD (n - 1) 0)

/-- A pair of bounds that are both present, with low at most high. -/
def scaleLE (b : Option ℚ × Option ℚ) : Prop :=
  match b with
  | (some lo, some hi) => lo ≤ hi
  | _ => False

/-- The pipeline order of `main` (lines 186-204): loaders are external, so
the modelled run is join, then the two artifacts.  The poster artifact is
summarised by its color-scale bounds, the interactive artifact by the
metric values it maps; a `merge_data` error aborts before either artifact
exists. -/
def runPipeline (gdf df : DataFrame) (metric : Str) :
    Except MergeError ((Option ℚ × Option ℚ) × List (Option ℚ)) :=
  match merge_data gdf df metric with
  | .error e => .error e
  | .ok (_, _, merged) => .ok (colorScale (metricVals merged), metricVals merged)

/-- Rows are aligned with the column list. -/
abbrev WF (d : DataFrame) : Prop := ∀ r ∈ d.rows, r.length = d.cols.length

/-- The mutated geographic frame of a successful `merge_data` run. -/
def joinedGeoOf (g d : DataFrame) (m : Str) : DataFrame :=
  match merge_data g d m with
  | .ok x => x.1
  | .error _ => ⟨[], []⟩

/-- The mutated metric frame of a successful `merge_data` run. -/
def joinedCsvOf (g d : DataFrame) (m : Str) : DataFrame :=
  match merge_data g d m with
  | .ok x => x.2.1
  | .error _ => ⟨[], []⟩

/-- The merged frame of a successful `merge_data` run. -/
def mergedOf (g d : DataFrame) (m : Str) : DataFrame :=
  match merge_data g d m with
  | .ok x => x.2.2
  | .error _ => ⟨[], []⟩

/-! ### Concrete inputs used as examples and counterexamples -/

/-- Three polygons named A, B, C (geometry columns omitted: they play no
role in the join logic). -/
def gdfABC : DataFrame :=
  ⟨[codes "Community"], [[.str (codes "A")], [.str (codes "B")], [.str (codes "C")]]⟩

/-- Metric rows a ↦ 5 and C ↦ 15. -/
def dfab : DataFrame :=
  ⟨[codes "Community Area Name", codes "Value"],
   [[.str (codes "a"), .num 5], [.str (codes "C"), .num 15]]⟩

/-- One geographic feature keyed a. -/
def gdfDup : DataFrame := ⟨[codes "community"], [[.str (codes "a")]]⟩

/-- Two metric rows with the same key a. -/
def dfDup : DataFrame :=
  ⟨[codes "Community Area Name", codes "V"],
   [[.str (codes "a"), .num 1], [.str (codes "a"), .num 2]]⟩

/-- One feature with a community column and an extra geo-only column. -/
def gdfExtra : DataFrame :=
  ⟨[codes "community", codes "extra"],
   [[.str (codes "a"), .str (codes "shape")]]⟩

/-- One metric row keyed a with one metric column V. -/
def dfV : DataFrame :=
  ⟨[codes "Community Area Name", codes "V"], [[.str (codes "a"), .num 1]]⟩

/-- A geographic frame with no column mentioning community. -/
def gdfNoComm : DataFrame := ⟨[codes "name"], [[.str (codes "a")]]⟩

/-! ### Inversion helpers for `merge_data` -/

/-- What a successful `merge_data` run tells us about its pieces. -/
theorem merge_data_ok_inv (gdf df : DataFrame) (metric : Str)
    (g2 d2 mg : DataFrame)
    (hok : merge_data gdf df metric = .ok (g2, d2, mg)) :
    ∃ gk, findGKey gdf.cols = some gk ∧ caName ∈ df.cols ∧
      g2 = setCol gdf joinName ((colValsD gdf gk).map normCell) ∧
      d2 = setCol df joinName ((colValsD df caName).map normCell) ∧
      metric ∈ (leftMerge g2 d2).cols ∧
      mg = setCol (leftMerge g2 d2) metricValueName
        ((colValsD (leftMerge g2 d2) metric).map toNumeric) := by
  simp only [merge_data] at hok
  split at hok
  · cases hok
  next gk hfind =>
    split at hok
    next hca =>
      split at hok
      next hm =>
        rw [Except.ok.injEq, Prod.mk.injEq, Prod.mk.injEq] at hok
        obtain ⟨h1, h2, h3⟩ := hok
        subst h1; subst h2
        exact ⟨gk, hfind, hca, rfl, rfl, hm, h3.symm⟩
      next hm => cases hok
    next hca => cases hok

/-- `(colValsD d c).length = d.rows.length`. -/
theorem colValsD_length (d : DataFrame) (c : Str) :
    (colValsD d c).length = d.rows.length := by
  unfold colValsD
  cases colIdx d c <;> simp

/-- `setCol` on an absent column appends it on the right. -/
theorem setCol_append (d : DataFrame) (c : Str) (vals : List Cell)
    (h : colIdx d c = none) :
    setCol d c vals =
      ⟨d.cols ++ [c], (d.rows.zip vals).map (fun rv => rv.1 ++ [rv.2])⟩ := by
  unfold setCol
  rw [h]

/-- `setCol` keeps the number of rows when the new column is full length. -/
theorem setCol_rows_length (d : DataFrame) (c : Str) (vals : List Cell)
    (h : vals.length = d.rows.length) :
    (setCol d c vals).rows.length = d.rows.length := by
  unfold setCol
  cases colIdx d c <;> simp [List.length_zip, h]

/-- A left row with at most one match contributes exactly one output row. -/
theorem leftMergeRow_length_one (l r : DataFrame) (lr : List Cell)
    (h : (r.rows.filter (fun rr => rowJoinVal r rr == rowJoinVal l lr)).length ≤ 1) :
    (leftMergeRow l r lr).length = 1 := by
  by_cases hms :
    (r.rows.filter (fun rr => rowJoinVal r rr == rowJoinVal l lr)).isEmpty
  · simp [leftMergeRow, hms]
  · have hpos :
        0 < (r.rows.filter (fun rr => rowJoinVal r rr == rowJoinVal l lr)).length := by
      cases hl : r.rows.filter (fun rr => rowJoinVal r rr == rowJoinVal l lr) with
      | nil => rw [hl] at hms; simp at hms
      | cons a t => simp
    simp only [leftMergeRow, if_neg hms, List.length_map]
    omega

/-- Flattening blocks of size one preserves the count. -/
theorem flatten_map_length_one {α β : Type} (rs : List α) (f : α → List β)
    (h : ∀ x ∈ rs, (f x).length = 1) :
    ((rs.map f).flatten).length = rs.length := by
  induction rs with
  | nil => simp
  | cons a t ih =>
    simp only [List.map_cons, List.flatten_cons, List.length_append,
      List.length_cons, h a (by simp)]
    rw [ih (fun x hx => h x (by simp [hx]))]
    omega

/-! ### Claim theorems -/

/-- Claim C5: on three features A, B, C and metric rows a ↦ 5, C ↦ 15, the
join returns exactly three features, in order A, B, C, with metric values
5, null, 15. -/
theorem merge_data_example_ABC :
    (merge_data gdfABC dfab (codes "Value")).map
      (fun x => (x.2.2.rows.length, colValsD x.2.2 (codes "Community"),
                 metricVals x.2.2)) =
    .ok (3, [.str (codes "A"), .str (codes "B"), .str (codes "C")],
         [some 5, none, some 15]) := rfl

/-- Counterexample to claim C1 as stated: one geographic feature keyed a,
two metric rows keyed a — the joined output has two rows, not one. -/
theorem merge_data_dup_counterexample :
    gdfDup.rows.length = 1 ∧
    (merge_data gdfDup dfDup (codes "V")).map (fun x => x.2.2.rows.length) =
      .ok 2 :=
  ⟨rfl, rfl⟩

/-- Claim C1 (amended): when every geographic join key matches at most one
metric row, the joined output has exactly as many rows as the geographic
input (each feature once, unmatched metric rows adding nothing). -/
theorem merge_data_cardinality (gdf df : DataFrame) (metric : Str)
    (g2 d2 mg : DataFrame)
    (hok : merge_data gdf df metric = .ok (g2, d2, mg))
    (huniq : ∀ lr ∈ g2.rows,
      (d2.rows.filter (fun rr => rowJoinVal d2 rr == rowJoinVal g2 lr)).length ≤ 1) :
    mg.rows.length = gdf.rows.length := by
  obtain ⟨gk, hfind, hca, hg2, hd2, hm, hmg⟩ :=
    merge_data_ok_inv gdf df metric g2 d2 mg hok
  have hml : (leftMerge g2 d2).rows.length = g2.rows.length := by
    simp only [leftMerge]
    exact flatten_map_length_one _ _
      (fun lr hlr => leftMergeRow_length_one g2 d2 lr (huniq lr hlr))
  have hg2len : g2.rows.length = gdf.rows.length := by
    rw [hg2]
    exact setCol_rows_length _ _ _ (by simp [colValsD_length])
  rw [hmg, setCol_rows_length _ _ _ (by simp [colValsD_length]), hml, hg2len]

/-- Witness for the amended C1 at the A/B/C example. -/
theorem merge_data_cardinality_witness :
    (mergedOf gdfABC dfab (codes "Value")).rows.length = gdfABC.rows.length :=
  merge_data_cardinality gdfABC dfab (codes "Value")
    (joinedGeoOf gdfABC dfab (codes "Value"))
    (joinedCsvOf gdfABC dfab (codes "Value"))
    (mergedOf gdfABC dfab (codes "Value")) rfl (by decide)

/-- Counterexample to claim C2 as stated: the metric name "extra" is not a
column of the metric rows, yet the run succeeds and produces both
artifacts (the check is against the merged frame, which also contains the
geographic columns). -/
theorem merge_data_metric_check_counterexample :
    (codes "extra" ∉ dfV.cols) ∧
    (runPipeline gdfExtra dfV (codes "extra")).isOk = true :=
  ⟨by decide, rfl⟩

/-- Claim C2 (amended): `merge_data` raises metric-not-found iff both schema
checks pass and the metric name is not among the columns of the merged
frame (geographic plus metric columns); on any raise no artifact is
produced. -/
theorem merge_data_metric_not_found_iff (gdf df : DataFrame) (metric : Str) :
    (merge_data gdf df metric = .error .metricNotFound ↔
      ∃ gk, findGKey gdf.cols = some gk ∧ caName ∈ df.cols ∧
        metric ∉ (leftMerge
          (setCol gdf joinName ((colValsD gdf gk).map normCell))
          (setCol df joinName ((colValsD df caName).map normCell))).cols) ∧
    (∀ e, merge_data gdf df metric = .error e →
      runPipeline gdf df metric = .error e) := by
  constructor
  · constructor
    · intro he
      simp only [merge_data] at he
      split at he
      · cases he
      next gk hfind =>
        split at he
        next hca =>
          split at he
          next hm => cases he
          next hm => exact ⟨gk, hfind, hca, hm⟩
        next hca => simp at he
    · rintro ⟨gk, hfind, hca, hm⟩
      simp [merge_data, hfind, hca, hm]
  · intro e he
    simp [runPipeline, he]

/-- Witness for the amended C2 at a concrete missing metric name: the raise
happens and the pipeline yields no artifact. -/
theorem merge_data_metric_not_found_iff_witness :
    caName ∈ dfV.cols ∧
    (runPipeline gdfExtra dfV (codes "missing")).isOk = false := by
  obtain ⟨gk, -, hca, -⟩ :=
    (merge_data_metric_not_found_iff gdfExtra dfV (codes "missing")).1.mp rfl
  refine ⟨hca, ?_⟩
  rw [(merge_data_metric_not_found_iff gdfExtra dfV (codes "missing")).2 _ rfl]
  rfl

/-- Claim C8: a schema error is raised exactly when no geographic column
name contains "community" (case-insensitively) or the metric table lacks
the "Community Area Name" column; any `merge_data` error aborts the
pipeline before either artifact is produced. -/
theorem merge_data_schema_iff (gdf df : DataFrame) (metric : Str) :
    ((∃ e, merge_data gdf df metric = .error e ∧ e.isSchema = true) ↔
      (findGKey gdf.cols = none ∨ caName ∉ df.cols)) ∧
    (∀ e, merge_data gdf df metric = .error e →
      runPipeline gdf df metric = .error e) := by
  constructor
  · constructor
    · rintro ⟨e, he, hs⟩
      simp only [merge_data] at he
      split at he
      next hfind => exact Or.inl hfind
      next gk hfind =>
        split at he
        next hca =>
          split at he
          next hm => cases he
          next hm =>
            rw [Except.error.injEq] at he
            subst he
            simp [MergeError.isSchema] at hs
        next hca => exact Or.inr hca
    · intro h
      cases hfind : findGKey gdf.cols with
      | none => exact ⟨.noCommunityField, by simp [merge_data, hfind], rfl⟩
      | some gk =>
        have hca : caName ∉ df.cols := by
          rcases h with h | h
          · rw [hfind] at h; cases h
          · exact h
        exact ⟨.noCsvKeyColumn, by simp [merge_data, hfind, hca], rfl⟩
  · intro e he
    simp [runPipeline, he]

/-- Witness for C8: a frame with no community-named column raises a schema
error and the pipeline yields no artifact. -/
theorem merge_data_schema_iff_witness :
    (runPipeline gdfNoComm dfV (codes "V")).isOk = false := by
  obtain ⟨e, he, -⟩ :=
    (merge_data_schema_iff gdfNoComm dfV (codes "V")).1.mpr (Or.inl (by decide))
  rw [(merge_data_schema_iff gdfNoComm dfV (codes "V")).2 e he]
  rfl

/-- Claim C10: the join key comes from the first column (in column order)
whose name contains "community" case-insensitively, regardless of any later
matching columns. -/
theorem findGKey_first (pre post : List Str) (c : Str)
    (hpre : ∀ c' ∈ pre, containsCommunity c' = false)
    (hc : containsCommunity c = true) :
    findGKey (pre ++ c :: post) = some c := by
  induction pre with
  | nil => simpa [findGKey] using List.find?_cons_of_pos post hc
  | cons a t ih =>
    have ha : containsCommunity a = false := hpre a (by simp)
    rw [findGKey, List.cons_append, List.find?_cons_of_neg _ (by simp [ha])]
    exact ih (fun c' h => hpre c' (by simp [h]))

/-- Lowercasing is idempotent on one code. -/
theorem lowerCode_idem (n : Nat) : lowerCode (lowerCode n) = lowerCode n := by
  unfold lowerCode
  by_cases h : 65 ≤ n ∧ n ≤ 90
  · rw [if_pos h, if_neg (by omega)]
  · rw [if_neg h, if_neg h]

/-- Lowercasing never creates or destroys whitespace. -/
theorem isSpace_lowerCode (n : Nat) : isSpaceCode (lowerCode n) = isSpaceCode n := by
  unfold lowerCode
  by_cases h : 65 ≤ n ∧ n ≤ 90
  · rw [if_pos h]
    have h1 : isSpaceCode (n + 32) = false := by
      unfold isSpaceCode
      simp only [Bool.or_eq_false_iff, beq_eq_false_iff_ne, ne_eq]
      omega
    have h2 : isSpaceCode n = false := by
      unfold isSpaceCode
      simp only [Bool.or_eq_false_iff, beq_eq_false_iff_ne, ne_eq]
      omega
    rw [h1, h2]
  · rw [if_neg h]

/-- Lowercasing a string twice equals lowercasing once. -/
theorem lowerStr_idem (s : Str) : lowerStr (lowerStr s) = lowerStr s := by
  unfold lowerStr
  rw [List.map_map]
  exact List.map_congr_left (fun a _ => lowerCode_idem a)

/-- Lowercasing commutes with dropping leading whitespace. -/
theorem lowerStr_dropWhile (s : Str) :
    (lowerStr s).dropWhile isSpaceCode = lowerStr (s.dropWhile isSpaceCode) := by
  have hf : (isSpaceCode ∘ lowerCode) = isSpaceCode := funext isSpace_lowerCode
  unfold lowerStr
  rw [List.dropWhile_map, hf]

/-- Lowercasing commutes with reversal. -/
theorem lowerStr_reverse (s : Str) :
    (lowerStr s).reverse = lowerStr s.reverse := by
  unfold lowerStr
  exact (List.map_reverse _ _).symm

/-- Lowercasing commutes with dropping trailing whitespace. -/
theorem lowerStr_rdropWhile (s : Str) :
    (lowerStr s).rdropWhile isSpaceCode = lowerStr (s.rdropWhile isSpaceCode) := by
  unfold List.rdropWhile
  rw [lowerStr_reverse, lowerStr_dropWhile, lowerStr_reverse]

/-- Strip and lowercase commute. -/
theorem stripStr_lowerStr (s : Str) :
    stripStr (lowerStr s) = lowerStr (stripStr s) := by
  unfold stripStr
  rw [lowerStr_dropWhile, lowerStr_rdropWhile]

/-- Dropping a prefix never lengthens a list. -/
theorem length_dropWhile_le (p : Nat → Bool) (l : Str) :
    (l.dropWhile p).length ≤ l.length := by
  induction l with
  | nil => simp
  | cons a t ih =>
    by_cases h : p a
    · rw [List.dropWhile_cons_of_pos h]
      exact le_trans ih (by simp)
    · rw [List.dropWhile_cons_of_neg h]

/-- A list starting with its own `dropWhile` has a non-matching head. -/
theorem dropWhile_eq_self_head (p : Nat → Bool) (x : Nat) (t : Str)
    (h : (x :: t).dropWhile p = x :: t) : p x = false := by
  by_cases hx : p x
  · rw [List.dropWhile_cons_of_pos hx] at h
    have hle := length_dropWhile_le p t
    rw [h] at hle
    simp at hle
  · simpa using hx

/-- Front-stripping an already front-and-back-stripped list is the
identity. -/
theorem dropWhile_rdropWhile_eq (p : Nat → Bool) (B : Str)
    (hB : B.dropWhile p = B) :
    (B.rdropWhile p).dropWhile p = B.rdropWhile p := by
  cases hr : B.rdropWhile p with
  | nil => rfl
  | cons x y =>
    obtain ⟨u, hu⟩ := List.rdropWhile_prefix p B
    rw [hr] at hu
    have hx : p x = false := by
      have hB' : (x :: (y ++ u)).dropWhile p = x :: (y ++ u) := by
        rw [List.cons_append] at hu
        rw [hu, hB]
      exact dropWhile_eq_self_head p x (y ++ u) hB'
    rw [List.dropWhile_cons_of_neg (by simp [hx])]

/-- Python `str.strip` is idempotent. -/
theorem stripStr_idem (s : Str) : stripStr (stripStr s) = stripStr s := by
  unfold stripStr
  rw [dropWhile_rdropWhile_eq _ _ (List.dropWhile_idempotent _ _)]
  exact List.rdropWhile_idempotent _ _

/-- Back-stripping ignores an all-matching suffix. -/
theorem rdropWhile_append_all (p : Nat → Bool) (l post : Str)
    (h : ∀ c ∈ post, p c = true) :
    (l ++ post).rdropWhile p = l.rdropWhile p := by
  induction post using List.reverseRecOn with
  | nil => simp
  | append_singleton t x ih =>
    rw [← List.append_assoc,
      List.rdropWhile_concat_pos p (l ++ t) x (h x (by simp))]
    exact ih (fun c hc => h c (by simp [hc]))

/-- Stripping ignores all-whitespace padding on both sides. -/
theorem stripStr_pad (pre core post : Str)
    (hpre : ∀ c ∈ pre, isSpaceCode c = true)
    (hpost : ∀ c ∈ post, isSpaceCode c = true) :
    stripStr (pre ++ core ++ post) = stripStr core := by
  unfold stripStr
  rw [List.append_assoc, List.dropWhile_append_of_pos hpre, List.dropWhile_append]
  by_cases hc : (core.dropWhile isSpaceCode).isEmpty
  · rw [if_pos hc]
    rw [List.dropWhile_eq_nil_iff.mpr hpost]
    have : core.dropWhile isSpaceCode = [] := by
      cases h : core.dropWhile isSpaceCode with
      | nil => rfl
      | cons a t => rw [h] at hc; simp at hc
    rw [this]
  · rw [if_neg hc]
    exact rdropWhile_append_all _ _ _ hpost

/-- Claim C4: join-key normalization (case-fold then trim, applied to both
sides identically) is idempotent, identifies any two strings that agree up
to letter case and leading/trailing whitespace, and in particular sends
"Austin ", "austin" and " AUSTIN" to the same key. -/
theorem normalizeKey_props :
    (∀ s, normalizeKey (normalizeKey s) = normalizeKey s) ∧
    (∀ pre core post pre2 core2 post2 : Str,
      (∀ c ∈ pre, isSpaceCode c = true) → (∀ c ∈ post, isSpaceCode c = true) →
      (∀ c ∈ pre2, isSpaceCode c = true) → (∀ c ∈ post2, isSpaceCode c = true) →
      lowerStr core = lowerStr core2 →
      normalizeKey (pre ++ core ++ post) = normalizeKey (pre2 ++ core2 ++ post2)) ∧
    (normalizeKey (codes "Austin ") = normalizeKey (codes "austin") ∧
     normalizeKey (codes "austin") = normalizeKey (codes " AUSTIN")) := by
  have hvar : ∀ pre core post : Str,
      (∀ c ∈ pre, isSpaceCode c = true) → (∀ c ∈ post, isSpaceCode c = true) →
      normalizeKey (pre ++ core ++ post) = stripStr (lowerStr core) := by
    intro pre core post hpre hpost
    unfold normalizeKey lowerStr
    rw [List.map_append, List.map_append]
    refine stripStr_pad _ _ _ ?_ ?_
    · intro c hc
      obtain ⟨a, ha, rfl⟩ := List.mem_map.mp hc
      rw [isSpace_lowerCode]
      exact hpre a ha
    · intro c hc
      obtain ⟨a, ha, rfl⟩ := List.mem_map.mp hc
      rw [isSpace_lowerCode]
      exact hpost a ha
  refine ⟨?_, ?_, by decide, by decide⟩
  · intro s
    unfold normalizeKey
    rw [stripStr_lowerStr (stripStr (lowerStr s)), stripStr_idem,
      stripStr_lowerStr, lowerStr_idem]
  · intro pre core post pre2 core2 post2 hpre hpost hpre2 hpost2 hcore
    rw [hvar pre core post hpre hpost, hvar pre2 core2 post2 hpre2 hpost2,
      hcore]

/-- Witness for C4: a concrete variant pair, related through the general
case/whitespace-variant statement. -/
theorem normalizeKey_props_witness :
    normalizeKey ([] ++ codes "Austin" ++ codes " ") =
      normalizeKey (codes " " ++ codes "AUSTIN" ++ []) :=
  normalizeKey_props.2.1 [] (codes "Austin") (codes " ")
    (codes " ") (codes "AUSTIN") []
    (by decide) (by decide) (by decide) (by decide) (by decide)

/-- Claim C6: numeric coercion is total — every cell maps to a parsed
number or to null, never an error; numbers pass through, null and
unparseable strings give null, parseable strings give their parse.  (It is
a pure function of the cell, hence deterministic by construction.) -/
theorem toNumeric_spec :
    (∀ c : Cell, (∃ q, toNumeric c = .num q) ∨ toNumeric c = .null) ∧
    (∀ q, toNumeric (.num q) = .num q) ∧
    (∀ c : Cell, toNumeric c = .null ↔
      (c = .null ∨ ∃ s, c = .str s ∧ parseNum s = none)) ∧
    (∀ s q, parseNum s = some q → toNumeric (.str s) = .num q) := by
  refine ⟨?_, fun q => rfl, ?_, ?_⟩
  · intro c
    cases c with
    | str s =>
      cases h : parseNum s with
      | none => right; simp [toNumeric, h]
      | some q => left; exact ⟨q, by simp [toNumeric, h]⟩
    | num q => left; exact ⟨q, rfl⟩
    | null => right; rfl
  · intro c
    cases c with
    | str s =>
      cases h : parseNum s with
      | none => simp [toNumeric, h]
      | some q => simp [toNumeric, h]
    | num q => simp [toNumeric]
    | null => simp [toNumeric]
  · intro s q h
    simp [toNumeric, h]

/-- Witness for C6: the non-numeric string "abc" coerces to null, not an
error. -/
theorem toNumeric_spec_witness :
    toNumeric (.str (codes "abc")) = .null :=
  (toNumeric_spec.2.2.1 (.str (codes "abc"))).mpr
    (Or.inr ⟨codes "abc", rfl, rfl⟩)

/-- The index lookup misses exactly when the column name is absent. -/
theorem colIdx_eq_none (d : DataFrame) (c : Str) (h : c ∉ d.cols) :
    colIdx d c = none := by
  unfold colIdx
  rw [List.findIdx?_eq_none_iff]
  intro x hx
  simp only [beq_eq_false_iff_ne]
  intro hxc
  exact h (hxc ▸ hx)

/-- Appending one value to full-length rows leaves their old part intact. -/
theorem map_take_zip_append (rs : List (List Cell)) (vs : List Cell) (n : Nat)
    (hlen : ∀ r ∈ rs, r.length = n) (hv : vs.length = rs.length) :
    ((rs.zip vs).map (fun rv => rv.1 ++ [rv.2])).map (fun r => r.take n) = rs := by
  induction rs generalizing vs with
  | nil => simp
  | cons r t ih =>
    cases vs with
    | nil => simp at hv
    | cons v vt =>
      simp only [List.zip_cons_cons, List.map_cons, List.cons.injEq]
      constructor
      · exact List.take_left' (hlen r (by simp))
      · exact ih vt (fun x hx => hlen x (by simp [hx])) (by simpa using hv)

/-- Claim C9: a successful `merge_data` hands back mutated inputs: the
geographic frame and the metric frame each gain a new `__join__` column on
the right, while every pre-existing column of each is unmodified. -/
theorem merge_data_mutates_inputs (gdf df : DataFrame) (metric : Str)
    (g2 d2 mg : DataFrame)
    (hok : merge_data gdf df metric = .ok (g2, d2, mg))
    (hwg : WF gdf) (hwd : WF df)
    (hgj : joinName ∉ gdf.cols) (hdj : joinName ∉ df.cols) :
    g2.cols = gdf.cols ++ [joinName] ∧ d2.cols = df.cols ++ [joinName] ∧
    g2.rows.map (fun r => r.take gdf.cols.length) = gdf.rows ∧
    d2.rows.map (fun r => r.take df.cols.length) = df.rows := by
  obtain ⟨gk, hfind, hca, hg2, hd2, -, -⟩ :=
    merge_data_ok_inv gdf df metric g2 d2 mg hok
  have hgidx := colIdx_eq_none gdf joinName hgj
  have hdidx := colIdx_eq_none df joinName hdj
  subst hg2; subst hd2
  rw [setCol_append gdf joinName _ hgidx, setCol_append df joinName _ hdidx]
  refine ⟨rfl, rfl, ?_, ?_⟩
  · exact map_take_zip_append gdf.rows _ gdf.cols.length hwg
      (by simp [colValsD_length])
  · exact map_take_zip_append df.rows _ df.cols.length hwd
      (by simp [colValsD_length])

/-- Witness for C9 at the A/B/C example. -/
theorem merge_data_mutates_inputs_witness :
    (joinedGeoOf gdfABC dfab (codes "Value")).cols = gdfABC.cols ++ [joinName] ∧
    (joinedCsvOf gdfABC dfab (codes "Value")).cols = dfab.cols ++ [joinName] ∧
    (joinedGeoOf gdfABC dfab (codes "Value")).rows.map
      (fun r => r.take gdfABC.cols.length) = gdfABC.rows ∧
    (joinedCsvOf gdfABC dfab (codes "Value")).rows.map
      (fun r => r.take dfab.cols.length) = dfab.rows :=
  merge_data_mutates_inputs gdfABC dfab (codes "Value")
    (joinedGeoOf gdfABC dfab (codes "Value"))
    (joinedCsvOf gdfABC dfab (codes "Value"))
    (mergedOf gdfABC dfab (codes "Value")) rfl
    (by decide) (by decide) (by decide) (by decide)

/-- Witness for C10: the first community-named column wins even when a later
one also matches. -/
theorem findGKey_first_witness :
    findGKey [codes "name", codes "Community", codes "community area"] =
      some (codes "Community") :=
  findGKey_first [codes "name"] [codes "community area"] (codes "Community")
    (by decide) (by decide)

/-- Claim C3: the color-scale computation first drops nulls and then takes
the 1st and 99th percentiles of the remaining values under the standard
linear-interpolation quantile definition (stated here as `specPercentile`,
written from the spec's order-statistics formula). -/
theorem colorScale_spec (vals : List (Option ℚ)) :
    colorScale vals = (specPercentile (dropNulls vals) (1 / 100),
      specPercentile (dropNulls vals) (99 / 100)) := by
  have key : ∀ (xs : List ℚ) (q : ℚ),
      quantileSorted (sortQ xs) q = specPercentile xs q := by
    intro xs q
    simp only [quantileSorted, specPercentile, interpAt]
    by_cases h : (sortQ xs).isEmpty
    · simp [h]
    · simp only [h, Bool.false_eq_true, if_false]
      split_ifs with h2
      · rw [Option.some.injEq]
        ring
      · rfl
  simp only [colorScale, seriesQuantile]
  rw [key, key]

/-- Entries of a sorted list are monotone in the index. -/
theorem sorted_getD_le (ys : List ℚ) (hs : List.Sorted (· ≤ ·) ys)
    (i j : ℕ) (hij : i ≤ j) (hj : j < ys.length) :
    ys.getD i 0 ≤ ys.getD j 0 := by
  rcases Nat.eq_or_lt_of_le hij with rfl | hlt
  · exact le_refl _
  · have hi : i < ys.length := lt_trans hlt hj
    have h := List.pairwise_iff_get.mp hs ⟨i, hi⟩ ⟨j, hj⟩ hlt
    rw [List.getD_eq_getElem ys 0 hi, List.getD_eq_getElem ys 0 hj]
    simpa using h

/-- Linear interpolation into a sorted list is monotone in the fractional
index. -/
theorem interpAt_mono (ys : List ℚ) (hs : List.Sorted (· ≤ ·) ys)
    (h1 h2 : ℚ) (h1nn : 0 ≤ h1) (h12 : h1 ≤ h2)
    (h2le : h2 ≤ (ys.length : ℚ) - 1) :
    interpAt ys h1 ≤ interpAt ys h2 := by
  have h2nn : 0 ≤ h2 := le_trans h1nn h12
  have hn0 : (0 : ℚ) ≤ (ys.length : ℚ) - 1 := le_trans h2nn h2le
  have hn1 : 1 ≤ ys.length := by
    by_contra hc
    push_neg at hc
    have hz : ys.length = 0 := by omega
    rw [hz] at hn0
    norm_num at hn0
  have hd : ∀ i, i + 1 < ys.length → ys.getD i 0 ≤ ys.getD (i + 1) 0 :=
    fun i hi => sorted_getD_le ys hs i (i + 1) (by omega) hi
  simp only [interpAt]
  generalize hg1 : (⌊h1⌋).toNat = i1
  generalize hg2 : (⌊h2⌋).toNat = i2
  have e1 : (i1 : ℤ) = ⌊h1⌋ := by
    rw [← hg1]
    exact Int.toNat_of_nonneg (Int.floor_nonneg.mpr h1nn)
  have e2 : (i2 : ℤ) = ⌊h2⌋ := by
    rw [← hg2]
    exact Int.toNat_of_nonneg (Int.floor_nonneg.mpr h2nn)
  have hi1le : (i1 : ℚ) ≤ h1 := by
    have hf : ((⌊h1⌋ : ℤ) : ℚ) ≤ h1 := Int.floor_le h1
    rw [← e1] at hf
    exact_mod_cast hf
  have hi2le : (i2 : ℚ) ≤ h2 := by
    have hf : ((⌊h2⌋ : ℤ) : ℚ) ≤ h2 := Int.floor_le h2
    rw [← e2] at hf
    exact_mod_cast hf
  have hi1lt : h1 < (i1 : ℚ) + 1 := by
    have hf : h1 < ((⌊h1⌋ : ℤ) : ℚ) + 1 := Int.lt_floor_add_one h1
    rw [← e1] at hf
    exact_mod_cast hf
  have hii : i1 ≤ i2 := by
    have hf := Int.floor_mono h12
    omega
  have hi2n : i2 ≤ ys.length - 1 := by
    have hcast : ((ys.length - 1 : ℕ) : ℚ) = (ys.length : ℚ) - 1 := by
      rw [Nat.cast_sub hn1, Nat.cast_one]
    have hf := Int.floor_mono (le_of_le_of_eq h2le hcast.symm)
    rw [Int.floor_natCast] at hf
    omega
  split_ifs with hA hB hB
  · rcases Nat.eq_or_lt_of_le hii with heq | hlt
    · subst heq
      have hd1 := hd i1 hA
      have hmul := mul_le_mul_of_nonneg_right (by linarith : h1 - (i1 : ℚ) ≤ h2 - (i1 : ℚ))
        (by linarith : (0 : ℚ) ≤ ys.getD (i1 + 1) 0 - ys.getD i1 0)
      linarith
  -- i1 < i2
    · have ha : ys.getD i1 0 + (h1 - (i1 : ℚ)) * (ys.getD (i1 + 1) 0 - ys.getD i1 0) ≤
          ys.getD (i1 + 1) 0 := by
        have hnn := mul_nonneg (by linarith : (0 : ℚ) ≤ 1 - (h1 - (i1 : ℚ)))
          (by linarith [hd i1 hA] : (0 : ℚ) ≤ ys.getD (i1 + 1) 0 - ys.getD i1 0)
        nlinarith
      have hmid : ys.getD (i1 + 1) 0 ≤ ys.getD i2 0 :=
        sorted_getD_le ys hs (i1 + 1) i2 (by omega) (by omega)
      have hb : ys.getD i2 0 ≤
          ys.getD i2 0 + (h2 - (i2 : ℚ)) * (ys.getD (i2 + 1) 0 - ys.getD i2 0) := by
        have hnn := mul_nonneg (by linarith : (0 : ℚ) ≤ h2 - (i2 : ℚ))
          (by linarith [hd i2 hB] : (0 : ℚ) ≤ ys.getD (i2 + 1) 0 - ys.getD i2 0)
        linarith
      linarith
  · have ha : ys.getD i1 0 + (h1 - (i1 : ℚ)) * (ys.getD (i1 + 1) 0 - ys.getD i1 0) ≤
        ys.getD (i1 + 1) 0 := by
      have hnn := mul_nonneg (by linarith : (0 : ℚ) ≤ 1 - (h1 - (i1 : ℚ)))
        (by linarith [hd i1 hA] : (0 : ℚ) ≤ ys.getD (i1 + 1) 0 - ys.getD i1 0)
      nlinarith
    have hmid : ys.getD (i1 + 1) 0 ≤ ys.getD (ys.length - 1) 0 :=
      sorted_getD_le ys hs (i1 + 1) (ys.length - 1) (by omega) (by omega)
    linarith
  · exfalso
    omega
  · exact le_refl _

/-- Claim C7: with at least two distinct non-null values the color-scale
bounds both exist and satisfy low ≤ high; with no non-null values the
bounds are null, and with exactly one non-null value both bounds equal it —
in every case the computation returns, it never raises. -/
theorem colorScale_bounds (vals : List (Option ℚ)) :
    (∀ a b : ℚ, a ∈ dropNulls vals → b ∈ dropNulls vals → a ≠ b →
      scaleLE (colorScale vals)) ∧
    (dropNulls vals = [] → colorScale vals = (none, none)) ∧
    (∀ v : ℚ, dropNulls vals = [v] → colorScale vals = (some v, some v)) := by
  refine ⟨?_, ?_, ?_⟩
  · intro a b ha hb hab
    have hmem : a ∈ sortQ (dropNulls vals) := by
      unfold sortQ
      exact (List.perm_insertionSort (· ≤ ·) (dropNulls vals)).mem_iff.mpr ha
    have hne : sortQ (dropNulls vals) ≠ [] := List.ne_nil_of_mem hmem
    have hE : (sortQ (dropNulls vals)).isEmpty = false := by
      cases hc : sortQ (dropNulls vals) with
      | nil => exact absurd hc hne
      | cons x t => rfl
    have hs : List.Sorted (· ≤ ·) (sortQ (dropNulls vals)) :=
      List.sorted_insertionSort (· ≤ ·) (dropNulls vals)
    have hn1 : 1 ≤ (sortQ (dropNulls vals)).length :=
      List.length_pos.mpr hne
    have hn0 : (0 : ℚ) ≤ ((sortQ (dropNulls vals)).length : ℚ) - 1 := by
      have : (1 : ℚ) ≤ ((sortQ (dropNulls vals)).length : ℚ) := by
        exact_mod_cast hn1
      linarith
    have hmono := interpAt_mono (sortQ (dropNulls vals)) hs
      ((1 / 100) * (((sortQ (dropNulls vals)).length : ℚ) - 1))
      ((99 / 100) * (((sortQ (dropNulls vals)).length : ℚ) - 1))
      (mul_nonneg (by norm_num) hn0)
      (mul_le_mul_of_nonneg_right (by norm_num) hn0)
      (mul_le_of_le_one_left hn0 (by norm_num))
    simp only [colorScale, seriesQuantile, quantileSorted, hE,
      Bool.false_eq_true, if_false, scaleLE]
    exact hmono
  · intro h
    simp [colorScale, seriesQuantile, quantileSorted, sortQ, h]
  · intro v h
    have hsort : sortQ (dropNulls vals) = [v] := by rw [h]; rfl
    simp only [colorScale, seriesQuantile, quantileSorted, hsort, interpAt]
    norm_num

/-- Witness for C7 at the value list containing 1, 2 and a null. -/
theorem colorScale_bounds_witness :
    scaleLE (colorScale [some 1, some 2, none]) :=
  (colorScale_bounds [some 1, some 2, none]).1 1 2
    (by decide) (by decide) (by norm_num)
